import Mathlib

/-!
Verification of the MahjongAI repository (tiles.py, mahjong_logic.py,
game_state.py, agent.py, game_engine.py, interactive_game.py) against its
natural-language specification.

The Python code is shallowly embedded: tiles are a structure over an
enumerated suit and a natural-number rank, lists model Python lists,
`ℚ` models the float scores (every score the code computes is an exact
small integer or half-integer, so float arithmetic is exact and agrees
with `ℚ`), and in-place mutation is modelled by returning the updated
list alongside the result.
-/

set_option maxRecDepth 4000

/-- `TileType` from tiles.py: the three suits WAN, TONG, TIAO. -/
inductive TileType where
  | wan
  | tong
  | tiao
deriving DecidableEq, Repr

/-- `Tile` from tiles.py: a frozen dataclass of a suit and a rank
(`value: int  # 1-9 for suits`); equality is componentwise, matching the
dataclass `__eq__`. -/
structure Tile where
  type : TileType
  value : Nat
deriving DecidableEq, Repr

instance : Inhabited Tile := ⟨⟨TileType.wan, 1⟩⟩

/-- Sort key order of the suits.  Python sorts by the key
`(t.type.value, t.value)` where `t.type.value` is the enum string, and
lexicographically "Tiao" < "Tong" < "Wan". -/
def suit_sort_key : TileType → Nat
  | TileType.tiao => 0
  | TileType.tong => 1
  | TileType.wan => 2

/-- Insertion into a sorted list, used to model Python's `sorted`.  Equal
sort keys determine equal tiles in this development, so stability is
unobservable and any correct sort models `sorted`. -/
def insert_by (le : α → α → Bool) (a : α) : List α → List α
  | [] => [a]
  | b :: bs => if le a b then a :: b :: bs else b :: insert_by le a bs

/-- Sorting a list by a boolean `le`, modelling Python's `sorted`. -/
def sort_by (le : α → α → Bool) (l : List α) : List α :=
  l.foldr (insert_by le) []

/-- Python's `sorted(tiles, key=lambda t: (t.type.value, t.value))`. -/
def sort_tiles (tiles : List Tile) : List Tile :=
  sort_by (fun a b =>
    suit_sort_key a.type < suit_sort_key b.type ||
      (suit_sort_key a.type == suit_sort_key b.type && a.value ≤ b.value)) tiles

/-- Python's `sorted` on a list of ranks. -/
def sort_vals (vs : List Nat) : List Nat :=
  sort_by (· ≤ ·) vs

/-- `MahjongLogic.is_valid_pair`: two tiles of equal suit and rank. -/
def is_valid_pair (tiles : List Tile) : Bool :=
  tiles.length == 2 &&
    match tiles with
    | a :: b :: _ => a.type == b.type && a.value == b.value
    | _ => false

/-- `MahjongLogic.is_valid_meld`: exactly three tiles forming a pung
(three identical tiles) or a chow (same suit, sorted ranks equal to
`range(min, min+3)`). -/
def is_valid_meld (tiles : List Tile) : Bool :=
  if tiles.length ≠ 3 then false
  else
    let t0 := tiles.getD 0 default
    if tiles.all (fun t => t.type == t0.type && t.value == t0.value) then true
    else if tiles.all (fun t => t.type == t0.type) then
      let values := sort_vals (tiles.map (·.value))
      let m := (tiles.map (·.value)).foldr min (tiles.getD 0 default).value
      values == [m, m + 1, m + 2]
    else false

/-- `MahjongLogic.can_form_melds`: the greedy decomposition check.  Empty
lists succeed; lengths not divisible by 3 fail; otherwise the first three
tiles are committed as a pung when identical, else as a "chow" when all
three share the first tile's suit and their sorted ranks `v0 ≤ v1 ≤ v2`
satisfy `v2 - v0 = 2` (the code checks only this spread, not
consecutiveness), recursing on the rest; otherwise the check fails with
no backtracking. -/
def can_form_melds : List Tile → Bool
  | [] => true
  | [_] => false
  | [_, _] => false
  | t0 :: t1 :: t2 :: rest =>
    if (t0 :: t1 :: t2 :: rest).length % 3 ≠ 0 then false
    else if t0.type == t1.type && t1.type == t2.type &&
        t0.value == t1.value && t1.value == t2.value then
      can_form_melds rest
    else
      let sorted_vals :=
        sort_vals (([t0, t1, t2].filter (·.type == t0.type)).map (·.value))
      if sorted_vals.length = 3 ∧
          sorted_vals.getD 2 0 - sorted_vals.getD 0 0 = 2 then
        can_form_melds rest
      else false

/-- `MahjongLogic.is_winning_hand`: exactly 14 tiles, and for some index
`i` of the canonically sorted hand, positions `i, i+1` form a valid pair
and the remaining 12 tiles pass `can_form_melds`. -/
def is_winning_hand (tiles : List Tile) : Bool :=
  if tiles.length ≠ 14 then false
  else
    let s := sort_tiles tiles
    (List.range (s.length - 1)).any (fun i =>
      is_valid_pair [s.getD i default, s.getD (i + 1) default] &&
        can_form_melds (s.take i ++ s.drop (i + 2)))

/-- The three suits in the iteration order the code uses. -/
def all_suits : List TileType := [TileType.wan, TileType.tong, TileType.tiao]

/-- The 27 tile identities in the iteration order the code uses
(suit-major, rank 1..9). -/
def all_tile_identities : List Tile :=
  all_suits.flatMap (fun s => (List.range' 1 9).map (fun v => Tile.mk s v))

/-- `MahjongLogic.find_all_melds`: one pung entry per distinct identity
held at least three times, then one chow entry per suit and start rank
1..7 whose three members are all present.  Python iterates pungs over
`set(tiles)` whose order is unspecified; only the multiplicity-free
collection matters, modelled by `dedup`. -/
def find_all_melds (tiles : List Tile) : List (List Tile) :=
  let pungs := (tiles.dedup.filter (fun t => 3 ≤ tiles.count t)).map
    (fun t => [t, t, t])
  let chows := all_suits.flatMap (fun s =>
    (List.range' 1 7).filterMap (fun v =>
      let seq := [Tile.mk s v, Tile.mk s (v + 1), Tile.mk s (v + 2)]
      if seq.all (fun t => 0 < tiles.count t) then some seq else none))
  pungs ++ chows

/-- `MahjongLogic.evaluate_waiting_tiles`: the set of tile identities `t`
such that `hand + [t]` is a winning hand.  The Python set of distinct
identities is modelled as a filtered duplicate-free list. -/
def evaluate_waiting_tiles (hand : List Tile) : List Tile :=
  all_tile_identities.filter (fun t => is_winning_hand (hand ++ [t]))

/-- The `pair_score` computed inside `MahjongAgent.evaluate_hand`:
`sum(2 for count in Counter(hand).values() if count >= 2)`.  The counter
values are, in first-occurrence order, the multiplicities of the distinct
identities in the hand. -/
def pair_score (hand : List Tile) : Nat :=
  (hand.dedup.map (fun t => hand.count t)).foldr
    (fun c acc => if 2 ≤ c then 2 + acc else acc) 0

/-- The inner loop of the `sequence_potential` computation: one point per
adjacent pair of a sorted rank list whose difference is at most 2. -/
def adjacent_close : List Nat → Nat
  | v0 :: v1 :: rest => (if v1 - v0 ≤ 2 then 1 else 0) + adjacent_close (v1 :: rest)
  | _ => 0

/-- The sorted rank list of one suit of a hand, as computed by
`sorted([t.value for t in hand if t.type == tile_type])`. -/
def suit_values (s : TileType) (hand : List Tile) : List Nat :=
  sort_vals ((hand.filter (·.type == s)).map (·.value))

/-- The `sequence_potential` accumulated over the three suits inside
`MahjongAgent.evaluate_hand`. -/
def sequence_potential (hand : List Tile) : Nat :=
  (all_suits.map (fun s => adjacent_close (suit_values s hand))).sum

/-- The `terminal_score` computed inside `MahjongAgent.evaluate_hand`:
the number of tiles of rank 1 or 9.  The source computes it and never
uses it in the returned total. -/
def terminal_score (hand : List Tile) : Nat :=
  (hand.filter (fun t => t.value == 1 || t.value == 9)).length

/-- `MahjongAgent.evaluate_hand` as a function of the seat's concealed
hand (the only state it reads).  Scores are modelled in `ℚ`: every value
the source computes is `10·M·2.0 + (2·P)·1.5 + S·1.0` for naturals
`M, P, S`, which IEEE doubles represent and combine exactly, so the
float result coincides with the rational one. -/
def evaluate_hand (hand : List Tile) : ℚ :=
  if hand.isEmpty then 0
  else
    let meld_score : ℚ := ((find_all_melds hand).length : ℚ) * 10
    let pscore : ℚ := (pair_score hand : ℚ)
    let seq : ℚ := (sequence_potential hand : ℚ)
    let _term := terminal_score hand
    meld_score * 2 + pscore * (3 / 2) + seq * 1

/-- The `for tile in hand:` loop of `MahjongAgent.choose_discard`,
modelling CPython list iteration: an internal index `i` is checked
against the CURRENT length of the list each step and `tile = hand[i]` is
read from the current (mutated) list.  The body removes the first
occurrence of `tile`, scores the remainder, re-appends `tile` at the
end, and keeps the strictly best `(tile, score)` seen so far (`best`
starts as `None`, modelling `best_score = -inf`, which every computed
score strictly exceeds).  `fuel` is the length of the list at entry;
each iteration preserves the length, so the loop runs exactly while
`i < hand.length`. -/
def choose_discard_loop (hand : List Tile) (i : Nat)
    (best : Option (Tile × ℚ)) : Nat → List Tile × Option (Tile × ℚ)
  | 0 => (hand, best)
  | fuel + 1 =>
    if h : i < hand.length then
      let tile := hand.get ⟨i, h⟩
      let hand1 := hand.erase tile
      let score := evaluate_hand hand1
      let hand2 := hand1 ++ [tile]
      let best1 :=
        match best with
        | none => some (tile, score)
        | some (bt, bs) => if bs < score then some (tile, score) else some (bt, bs)
      choose_discard_loop hand2 (i + 1) best1 fuel
    else (hand, best)

/-- `MahjongAgent.choose_discard` as a function of the seat's concealed
hand.  It returns the hand as the call leaves it (the Python code
mutates the list in place) together with the chosen tile; `none` models
the `None` returned for an empty hand. -/
def choose_discard (hand : List Tile) : List Tile × Option Tile :=
  if hand.isEmpty then (hand, none)
  else
    let r := choose_discard_loop hand 0 none hand.length
    (r.1, r.2.map Prod.fst)

/-- `MahjongAgent.calculate_tile_probabilities` as a function of the
multiset of visible tiles (all seats' discards, then all revealed melds,
then the querying seat's own hand, concatenated in the source's update
order).  The returned Python dict is modelled as an association list in
insertion order: when `total_unknown ≤ 0` its keys are only the visible
identities, each mapped to 0; otherwise the 27 identities each mapped to
`max(0, 4 - visible_count) / total_unknown`. -/
def calculate_tile_probabilities (visible : List Tile) : List (Tile × ℚ) :=
  let total_unknown : Int := 3 * 9 * 4 - visible.length
  if total_unknown ≤ 0 then
    visible.dedup.map (fun t => (t, (0 : ℚ)))
  else
    all_tile_identities.map (fun t =>
      let visible_count : Int := visible.count t
      let remaining : Int := max 0 (4 - visible_count)
      (t, if 0 < total_unknown then (remaining : ℚ) / (total_unknown : ℚ) else 0))

/-- `MahjongGame._can_claim_tile`: a seat can claim a discard iff its
concealed hand holds at least two tiles of the same suit and rank as the
discard (a pung claim; the engine checks nothing else). -/
def can_claim_tile (hand : List Tile) (tile : Tile) : Bool :=
  2 ≤ (hand.filter (fun t => t.type == tile.type && t.value == tile.value)).length

/-- The claim-resolution step of `MahjongGame.play_game` (lines 64-73):
`for i in range(4): if i != current_player and self._can_claim_tile(i,
discard): current_player = i; break`, and if no seat claimed,
`current_player = (current_player + 1) % 4`.  Seats are modelled as a
function from seat index to concealed hand. -/
def resolve_claim (p : Nat) (hands : Nat → List Tile) (tile : Tile) : Nat :=
  match (List.range 4).find? (fun i => i != p && can_claim_tile (hands i) tile) with
  | some i => i
  | none => (p + 1) % 4

/-- One fold step of `MahjongGame._get_winner`: keep the strictly best
score seen so far; `none` models the initial `best_score = -inf`, which
every computed score strictly exceeds.  The carried `Int` is the winner
index, initially `-1`. -/
def get_winner_step (hands : Nat → List Tile) (acc : Option ℚ × Int) (i : Nat) :
    Option ℚ × Int :=
  let score := evaluate_hand (hands i)
  match acc.1 with
  | none => (some score, (i : Int))
  | some best => if best < score then (some score, (i : Int)) else acc

/-- `MahjongGame._get_winner`: the seat whose hand evaluation is
(first-strictly) largest among seats 0,1,2,3. -/
def get_winner (hands : Nat → List Tile) : Int :=
  ((List.range 4).foldl (get_winner_step hands) (none, -1)).2

/-- The part of the engine's `GameState` that `MahjongGame.play_game`
reads and writes: the wall, each seat's concealed hand and discard pile,
and the current seat. -/
structure EngineState where
  wall : List Tile
  hands : Nat → List Tile
  discards : Nat → List Tile
  current : Nat

/-- Pointwise update of one seat's tile list. -/
def update_seat (f : Nat → List Tile) (i : Nat) (l : List Tile) :
    Nat → List Tile :=
  fun j => if j = i then l else f j

/-- `MahjongGame.play_game`, with `fuel` modelling the remaining turns of
the `turn_count < max_turns` guard (initially 100).  Each turn: draw
(wall exhaustion breaks the loop and falls through to `_get_winner`),
self-draw win check, discard choice (a `None` discard breaks the loop),
committing the discard, the win-from-discard scan over seats `0..3`
skipping the discarder, and claim resolution via `resolve_claim`. -/
def play_game : Nat → EngineState → Int
  | 0, s => get_winner s.hands
  | fuel + 1, s =>
    match s.wall with
    | [] => get_winner s.hands
    | t :: rest =>
      let p := s.current
      let hand1 := s.hands p ++ [t]
      if is_winning_hand hand1 then (p : Int)
      else
        let r := choose_discard hand1
        match r.2 with
        | none => get_winner (update_seat s.hands p r.1)
        | some d =>
          let hand3 := r.1.erase d
          let hands1 := update_seat s.hands p hand3
          match (List.range 4).find?
              (fun i => i != p && is_winning_hand (hands1 i ++ [d])) with
          | some i => (i : Int)
          | none =>
            play_game fuel
              { wall := rest
                hands := hands1
                discards := update_seat s.discards p (s.discards p ++ [d])
                current := resolve_claim p hands1 d }

/-- Whether `t` has the same suit and rank as `tile` (the matching test
used by the engine's and the interactive game's claim code). -/
def matches_tile (tile t : Tile) : Bool :=
  t.type == tile.type && t.value == tile.value

/-- Rank membership in `needed = set(range(start, start + 3)) - {tv}`
from the chow branches of `interactive_game.py` (`start` may be
non-positive, so ranks are compared as integers). -/
def in_needed (start tv : Int) (t : Tile) : Bool :=
  start ≤ (t.value : Int) && (t.value : Int) < start + 3 && (t.value : Int) != tv

/-- The `claim_made` tail of `InteractiveMahjongGame._handle_ai_claim`:
the claimer must discard via `choose_discard`; a `Some` discard is
removed from the (mutated) hand and appended to the claimer's discard
pile. -/
def after_claim (hand : List Tile) (melds : List (List Tile))
    (discards : List Tile) : (List Tile × List (List Tile) × List Tile) × Bool :=
  let r := choose_discard hand
  match r.2 with
  | some dt => ((r.1.erase dt, melds, discards ++ [dt]), true)
  | none => ((r.1, melds, discards), true)

/-- `InteractiveMahjongGame._handle_ai_claim` restricted to the claimer's
own components (its concealed hand, revealed melds and discard pile; the
function touches no other seat's tiles, and in particular never removes
the claimed tile from the discarder's discard pile).  Pung branch: with
at least two matching tiles in hand, the first two are removed and
`matching[:2] + [tile]` is revealed.  Chow branch (the guard
`tile.type in [WAN, TONG, TIAO]` is always true): the first start rank
in `range(tile.value - 2, tile.value + 1)` within bounds for which the
hand holds exactly two tiles with the needed ranks forms the meld
`sorted([tile] + sequence_tiles)`.  After either claim the claimer
discards. -/
def handle_ai_claim (hand : List Tile) (melds : List (List Tile))
    (discards : List Tile) (tile : Tile) :
    (List Tile × List (List Tile) × List Tile) × Bool :=
  let matching := hand.filter (matches_tile tile)
  if 2 ≤ matching.length then
    let hand1 := (hand.erase (matching.getD 0 default)).erase (matching.getD 1 default)
    let meld := matching.take 2 ++ [tile]
    after_claim hand1 (melds ++ [meld]) discards
  else
    let type_tiles := hand.filter (·.type == tile.type)
    let tv : Int := tile.value
    match ([tv - 2, tv - 1, tv]).find? (fun start =>
        decide (1 ≤ start) && decide (start + 2 ≤ 9) &&
          (type_tiles.filter (in_needed start tv)).length == 2) with
    | some start =>
      let seq_tiles := type_tiles.filter (in_needed start tv)
      let hand1 := (hand.erase (seq_tiles.getD 0 default)).erase (seq_tiles.getD 1 default)
      let meld := sort_by (fun a b => a.value ≤ b.value) (tile :: seq_tiles)
      after_claim hand1 (melds ++ [meld]) discards
    | none => ((hand, melds, discards), false)

/-- The number of physical tiles a seat accounts for: concealed hand,
revealed meld tiles, and its own discard pile. -/
def seat_tile_count (hand : List Tile) (melds : List (List Tile))
    (discards : List Tile) : Nat :=
  hand.length + (melds.map List.length).sum + discards.length

/-- Concrete Wan tile, used in concrete test states. -/
def wn (v : Nat) : Tile := ⟨TileType.wan, v⟩

/-- Concrete Tong tile, used in concrete test states. -/
def tg (v : Nat) : Tile := ⟨TileType.tong, v⟩

/-- Modelled from the spec's words for comparison with `resolve_claim`
(claim C1): scan the other three seats in the order `(p+1)%4, (p+2)%4,
(p+3)%4` and return the first seat for which a claim is possible. -/
def spec_claim_order_first (p : Nat) (hands : Nat → List Tile) (tile : Tile) :
    Option Nat :=
  [(p + 1) % 4, (p + 2) % 4, (p + 3) % 4].find?
    (fun i => can_claim_tile (hands i) tile)

/-- The spec's `P` for the hand-strength formula: the number of distinct
tile identities occurring at least twice in the hand. -/
def spec_pair_count (hand : List Tile) : Nat :=
  (hand.dedup.filter (fun t => 2 ≤ hand.count t)).length

/-- Concrete hands for exercising claim resolution: seats 0 and 3 each
hold two copies of `5-Wan` and so can pung that discard; seats 1 and 2
cannot. -/
def c1_hands : Nat → List Tile
  | 0 => [wn 5, wn 5]
  | 3 => [wn 5, wn 5]
  | _ => []

/-- Concrete hands for the wall-exhaustion path: seat 2 holds a pung of
`1-Wan` (hand evaluation 25); the other seats hold nothing (hand
evaluation 0). -/
def c4_hands : Nat → List Tile
  | 2 => [wn 1, wn 1, wn 1]
  | _ => []

/-- Concrete engine state whose wall is already exhausted. -/
def c4_state : EngineState :=
  { wall := [], hands := c4_hands, discards := fun _ => [], current := 0 }

/-- The folded `pair_score` is twice the number of distinct identities
with multiplicity at least 2. -/
theorem pair_fold_eq_two_mul (l : List Tile) (cnt : Tile → Nat) :
    (l.map cnt).foldr (fun c acc => if 2 ≤ c then 2 + acc else acc) 0 =
      2 * (l.filter (fun t => 2 ≤ cnt t)).length := by
  induction l with
  | nil => simp
  | cons a l ih =>
    by_cases h : 2 ≤ cnt a
    · simp only [List.map_cons, List.foldr_cons, if_pos h, ih, List.filter_cons,
        decide_eq_true h, if_true, List.length_cons]
      omega
    · simp [h, ih, List.filter_cons]

/-- `pair_score` is twice `spec_pair_count`. -/
theorem pair_score_eq (hand : List Tile) :
    pair_score hand = 2 * spec_pair_count hand := by
  simpa [pair_score, spec_pair_count] using
    pair_fold_eq_two_mul hand.dedup (fun t => hand.count t)

/-- The list the discard loop carries is always a permutation of the
hand it started from: each iteration removes one occurrence of the tile
at the current index and re-appends it at the end. -/
theorem choose_discard_loop_perm (fuel : Nat) :
    ∀ (hand : List Tile) (i : Nat) (best : Option (Tile × ℚ)),
      ((choose_discard_loop hand i best fuel).1).Perm hand := by
  induction fuel with
  | zero => intro hand i best; simp [choose_discard_loop]
  | succ n ih =>
    intro hand i best
    rw [choose_discard_loop]
    split
    case isTrue h =>
      have hmem : hand.get ⟨i, h⟩ ∈ hand := List.get_mem hand i h
      refine (ih _ _ _).trans ?_
      refine List.perm_append_comm.trans ?_
      simpa using (List.perm_cons_erase hmem).symm
    case isFalse h => simp

/-- Once the discard loop has a best candidate it keeps one. -/
theorem choose_discard_loop_some (fuel : Nat) :
    ∀ (hand : List Tile) (i : Nat) (p : Tile × ℚ),
      ((choose_discard_loop hand i (some p) fuel).2).isSome := by
  induction fuel with
  | zero => intro hand i p; simp [choose_discard_loop]
  | succ n ih =>
    intro hand i p
    rw [choose_discard_loop]
    split
    case isTrue h =>
      obtain ⟨bt, bs⟩ := p
      dsimp only
      split
      · exact ih _ _ _
      · exact ih _ _ _
    case isFalse h => simp

/-- The best candidate the discard loop returns is a member of the list
it started from (given that the incoming candidate is). -/
theorem choose_discard_loop_mem (fuel : Nat) :
    ∀ (hand : List Tile) (i : Nat) (best : Option (Tile × ℚ))
      (q : Tile × ℚ),
      (∀ r, best = some r → r.1 ∈ hand) →
      (choose_discard_loop hand i best fuel).2 = some q → q.1 ∈ hand := by
  induction fuel with
  | zero =>
    intro hand i best q hbest hq
    simp only [choose_discard_loop] at hq
    exact hbest q hq
  | succ n ih =>
    intro hand i best q hbest hq
    rw [choose_discard_loop] at hq
    split at hq
    case isTrue h =>
      have hmem : hand.get ⟨i, h⟩ ∈ hand := List.get_mem hand i h
      have hperm : (hand.erase (hand.get ⟨i, h⟩) ++ [hand.get ⟨i, h⟩]).Perm hand := by
        refine List.perm_append_comm.trans ?_
        simpa using (List.perm_cons_erase hmem).symm
      refine hperm.mem_iff.mp (ih _ _ _ _ ?_ hq)
      intro r hr
      cases best with
      | none =>
        simp only at hr
        cases hr
        exact hperm.mem_iff.mpr hmem
      | some p =>
        obtain ⟨bt, bs⟩ := p
        have hbt : bt ∈ hand := hbest (bt, bs) rfl
        simp only at hr
        split at hr
        · cases hr
          exact hperm.mem_iff.mpr hmem
        · cases hr
          exact hperm.mem_iff.mpr hbt
    case isFalse h =>
      simp only at hq
      exact hbest q hq

/-- `choose_discard` leaves the hand a permutation of what it was. -/
theorem choose_discard_perm (hand : List Tile) :
    ((choose_discard hand).1).Perm hand := by
  unfold choose_discard
  split
  · simp
  · exact choose_discard_loop_perm _ _ _ _

/-- A tile returned by `choose_discard` is a member of the hand. -/
theorem choose_discard_mem (hand : List Tile) (t : Tile) :
    (choose_discard hand).2 = some t → t ∈ hand := by
  unfold choose_discard
  split
  · simp
  · intro h
    simp only [Option.map_eq_some'] at h
    obtain ⟨q, hq, hqt⟩ := h
    subst hqt
    exact choose_discard_loop_mem _ _ _ _ _ (by simp) hq

/-- The discard loop yields a candidate whenever it has fuel and the
index is still in range. -/
theorem choose_discard_loop_some_of_lt (fuel : Nat) (hand : List Tile)
    (i : Nat) (best : Option (Tile × ℚ)) (hi : i < hand.length)
    (hf : fuel ≠ 0) :
    ((choose_discard_loop hand i best fuel).2).isSome := by
  cases fuel with
  | zero => exact absurd rfl hf
  | succ n =>
    rw [choose_discard_loop]
    rw [dif_pos hi]
    cases best with
    | none => exact choose_discard_loop_some n _ _ _
    | some p =>
      obtain ⟨bt, bs⟩ := p
      dsimp only
      split
      · exact choose_discard_loop_some n _ _ _
      · exact choose_discard_loop_some n _ _ _

/-- `choose_discard` returns `none` exactly on the empty hand. -/
theorem choose_discard_none_iff (hand : List Tile) :
    (choose_discard hand).2 = none ↔ hand = [] := by
  unfold choose_discard
  split
  case isTrue h => simpa using List.isEmpty_iff.mp h
  case isFalse h =>
    simp only [Option.map_eq_none']
    constructor
    · intro hnone
      exfalso
      cases hand with
      | nil => simp at h
      | cons a l =>
        have hs := choose_discard_loop_some_of_lt (a :: l).length (a :: l) 0 none
          (by simp) (by simp)
        rw [hnone] at hs
        simp at hs
    · intro hnil
      subst hnil
      simp at h

/-- C3: `can_form_melds` accepts the same-suit group with ranks 1, 1, 3
as a "run" (its chow test checks only that the sorted rank spread is 2),
although the code's own meld validity test `is_valid_meld` rejects this
group, so the tiles cannot be partitioned into valid melds; the claim
that such a group is never accepted as a run is contradicted by the
code. -/
theorem claim3_spread_two_accepted_as_run :
    can_form_melds [wn 1, wn 1, wn 3] = true ∧
    is_valid_meld [wn 1, wn 1, wn 3] = false := by
  decide

/-- C9: `is_winning_hand` returns `false` on every list whose length is
not 14, and `evaluate_waiting_tiles` returns the empty set on every hand
whose length is not 13, since each 1-tile extension is rejected by the
length guard. -/
theorem claim9_length_guard (tiles : List Tile) :
    (tiles.length ≠ 14 → is_winning_hand tiles = false) ∧
    (tiles.length ≠ 13 → evaluate_waiting_tiles tiles = []) := by
  constructor
  · intro h
    rw [is_winning_hand, if_pos h]
  · intro h
    rw [evaluate_waiting_tiles, List.filter_eq_nil_iff]
    intro t _
    have hlen : (tiles ++ [t]).length ≠ 14 := by
      rw [List.length_append]
      simpa using fun hc => h (by omega)
    rw [is_winning_hand, if_pos hlen]
    simp

/-- C9 witness: the empty hand is rejected by both length guards. -/
theorem claim9_witness :
    is_winning_hand [] = false ∧ evaluate_waiting_tiles [] = [] :=
  ⟨(claim9_length_guard []).1 (by decide), (claim9_length_guard []).2 (by decide)⟩

/-- C6: invoked on a seat with no concealed tiles, `choose_discard`
yields the signalled no-tile result `none` (the model of the Python
`None` return), and on any non-empty hand it yields a normal tile
result; the failure value is therefore produced exactly on the empty
hand and is distinct from every normal result. -/
theorem claim6_empty_hand_failure (hand : List Tile) :
    (hand = [] → (choose_discard hand).2 = none) ∧
    (hand ≠ [] → ∃ t, (choose_discard hand).2 = some t) := by
  constructor
  · intro h
    exact (choose_discard_none_iff hand).mpr h
  · intro h
    have hne : (choose_discard hand).2 ≠ none := by
      rw [ne_eq, choose_discard_none_iff]
      exact h
    exact Option.ne_none_iff_exists'.mp hne

/-- C6 witness: the empty hand fails, the hand `[1-Wan]` does not. -/
theorem claim6_witness :
    (choose_discard ([] : List Tile)).2 = none ∧
    ∃ t, (choose_discard [wn 1]).2 = some t :=
  ⟨(claim6_empty_hand_failure []).1 rfl,
    (claim6_empty_hand_failure [wn 1]).2 (by simp)⟩

/-- C5: evaluating the code at the failing input.  On the hand
`[1-Wan, 2-Wan]` the first call returns `1-Wan` but reorders the
persistent hand to `[2-Wan, 1-Wan]` (the loop removes and re-appends
each examined tile while iterating by index), and an immediately
repeated call on the unmodified game state then returns `2-Wan`: the
claimed determinism across successive calls and the claimed
preservation of the hand's tile order both fail. -/
theorem claim5_repeat_call_changes_result :
    (choose_discard [wn 1, wn 2]).2 = some (wn 1) ∧
    (choose_discard [wn 1, wn 2]).1 = [wn 2, wn 1] ∧
    (choose_discard ((choose_discard [wn 1, wn 2]).1)).2 = some (wn 2) := by
  with_unfolding_all decide

/-- C10: on every non-empty hand `choose_discard` returns a tile of the
hand, and the hand after the call is a permutation of (the same multiset
as) the hand before, the order possibly differing. -/
theorem claim10_member_and_multiset_frame (hand : List Tile) (h : hand ≠ []) :
    ∃ t, (choose_discard hand).2 = some t ∧ t ∈ hand ∧
      ((choose_discard hand).1 : Multiset Tile) = (hand : Multiset Tile) := by
  have hne : (choose_discard hand).2 ≠ none := by
    rw [ne_eq, choose_discard_none_iff]
    exact h
  obtain ⟨t, ht⟩ := Option.ne_none_iff_exists'.mp hne
  refine ⟨t, ht, choose_discard_mem hand t ht, ?_⟩
  exact Multiset.coe_eq_coe.mpr (choose_discard_perm hand)

/-- C10 witness: instantiated on the hand `[1-Wan, 2-Wan]`. -/
theorem claim10_witness :
    ∃ t, (choose_discard [wn 1, wn 2]).2 = some t ∧ t ∈ [wn 1, wn 2] ∧
      ((choose_discard [wn 1, wn 2]).1 : Multiset Tile) =
        ([wn 1, wn 2] : Multiset Tile) :=
  claim10_member_and_multiset_frame [wn 1, wn 2] (by simp)

/-- C1 counterexample: after seat 2 discards `5-Wan` with seats 0 and 3
both able to claim, the engine awards the claim to seat 0 (it scans
seats in ascending index order 0,1,2,3 skipping the discarder), whereas
the claimed fixed order `(p+1)%4, (p+2)%4, (p+3)%4` would award it to
seat 3. -/
theorem claim1_counterexample :
    can_claim_tile (c1_hands 0) (wn 5) = true ∧
    can_claim_tile (c1_hands 3) (wn 5) = true ∧
    spec_claim_order_first 2 c1_hands (wn 5) = some 3 ∧
    resolve_claim 2 c1_hands (wn 5) = 0 := by
  decide

/-- C1 amended: claim resolution scans seats in ascending index order
`0,1,2,3`, skipping the discarder `p`, and awards the claim to the
lowest-indexed other seat for which a claim is possible (the result is a
seat other than `p`, below 4, able to claim, and no greater than any
claimable seat); if no seat can claim, the turn passes to `(p+1)%4`. -/
theorem claim1_ascending_scan (p : Nat) (hands : Nat → List Tile)
    (tile : Tile) (hp : p < 4) :
    ((∀ i, i < 4 → i ≠ p → can_claim_tile (hands i) tile = false) →
      resolve_claim p hands tile = (p + 1) % 4) ∧
    (∀ i, i < 4 → i ≠ p → can_claim_tile (hands i) tile = true →
      resolve_claim p hands tile ≠ p ∧ resolve_claim p hands tile < 4 ∧
      can_claim_tile (hands (resolve_claim p hands tile)) tile = true ∧
      resolve_claim p hands tile ≤ i) := by
  have h4 : (List.range 4) = [0, 1, 2, 3] := by decide
  refine ⟨?_, ?_⟩
  · intro hall
    interval_cases p
    · have a1 := hall 1 (by omega) (by omega)
      have a2 := hall 2 (by omega) (by omega)
      have a3 := hall 3 (by omega) (by omega)
      simp [resolve_claim, h4, List.find?, a1, a2, a3]
    · have a0 := hall 0 (by omega) (by omega)
      have a2 := hall 2 (by omega) (by omega)
      have a3 := hall 3 (by omega) (by omega)
      simp [resolve_claim, h4, List.find?, a0, a2, a3]
    · have a0 := hall 0 (by omega) (by omega)
      have a1 := hall 1 (by omega) (by omega)
      have a3 := hall 3 (by omega) (by omega)
      simp [resolve_claim, h4, List.find?, a0, a1, a3]
    · have a0 := hall 0 (by omega) (by omega)
      have a1 := hall 1 (by omega) (by omega)
      have a2 := hall 2 (by omega) (by omega)
      simp [resolve_claim, h4, List.find?, a0, a1, a2]
  · intro i hi hip hcan
    interval_cases p <;> interval_cases i <;>
      by_cases h0 : can_claim_tile (hands 0) tile <;>
      by_cases h1 : can_claim_tile (hands 1) tile <;>
      by_cases h2 : can_claim_tile (hands 2) tile <;>
      by_cases h3 : can_claim_tile (hands 3) tile <;>
        simp_all [resolve_claim, h4, List.find?]

/-- C1 witness: the amended characterisation instantiated at seat 0
discarding `1-Wan` with all other hands empty. -/
theorem claim1_witness :
    ((∀ i, i < 4 → i ≠ 0 →
        can_claim_tile ((fun _ => ([] : List Tile)) i) (wn 1) = false) →
      resolve_claim 0 (fun _ => []) (wn 1) = (0 + 1) % 4) ∧
    (∀ i, i < 4 → i ≠ 0 →
      can_claim_tile ((fun _ => ([] : List Tile)) i) (wn 1) = true →
      resolve_claim 0 (fun _ => []) (wn 1) ≠ 0 ∧
      resolve_claim 0 (fun _ => []) (wn 1) < 4 ∧
      can_claim_tile ((fun _ => ([] : List Tile))
        (resolve_claim 0 (fun _ => []) (wn 1))) (wn 1) = true ∧
      resolve_claim 0 (fun _ => []) (wn 1) ≤ i) :=
  claim1_ascending_scan 0 (fun _ => []) (wn 1) (by decide)

/-- C8: for every non-empty hand the evaluation equals
`20·M + 3·P + 1·S` where `M` counts the (overlapping) melds reported by
`find_all_melds`, `P` counts distinct identities held at least twice and
`S` counts close adjacent pairs per suit; the terminal-tile count
appears nowhere in the formula. -/
theorem claim8_hand_score_formula (hand : List Tile) (h : hand ≠ []) :
    evaluate_hand hand =
      20 * ((find_all_melds hand).length : ℚ) +
        3 * (spec_pair_count hand : ℚ) + (sequence_potential hand : ℚ) := by
  rw [evaluate_hand, if_neg (by simpa using h)]
  rw [pair_score_eq]
  push_cast
  ring

/-- C8 witness: the hand `[1-Wan, 1-Wan, 1-Wan]` (one pung, one pair
identity, two close adjacencies: score 25). -/
theorem claim8_witness :
    evaluate_hand [wn 1, wn 1, wn 1] =
      20 * ((find_all_melds [wn 1, wn 1, wn 1]).length : ℚ) +
        3 * (spec_pair_count [wn 1, wn 1, wn 1] : ℚ) +
        (sequence_potential [wn 1, wn 1, wn 1] : ℚ) :=
  claim8_hand_score_formula [wn 1, wn 1, wn 1] (by simp)

/-- C4 counterexample: with the wall already empty and no winning hand
anywhere, `play_game` does NOT report a no-winner result: it returns
seat 2, the seat with the strictly highest heuristic hand evaluation
(25 versus 0), rather than the engine's only no-winner value `-1`. -/
theorem claim4_counterexample :
    play_game 100 c4_state = 2 ∧
    evaluate_hand (c4_state.hands 2) = 25 ∧
    evaluate_hand (c4_state.hands 0) = 0 ∧
    ((2 : Int) ≠ -1) := by
  with_unfolding_all decide

/-- C4 amended: whenever the wall is empty the game loop stops and
`play_game` returns `_get_winner()`: the first seat attaining the
maximum heuristic hand evaluation over the four seats (a seat index,
never a dedicated no-winner value). -/
theorem claim4_wall_exhaustion_argmax (fuel : Nat) (s : EngineState)
    (h : s.wall = []) :
    play_game fuel s = get_winner s.hands ∧
    ∃ w : Nat, get_winner s.hands = (w : Int) ∧ w < 4 ∧
      (∀ j, j < 4 → evaluate_hand (s.hands j) ≤ evaluate_hand (s.hands w)) ∧
      ∀ j, j < w → evaluate_hand (s.hands j) < evaluate_hand (s.hands w) := by
  constructor
  · cases fuel with
    | zero => rfl
    | succ n => rw [play_game, h]
  · have h4 : (List.range 4) = [0, 1, 2, 3] := by decide
    set e := fun i => evaluate_hand (s.hands i) with he
    have hg : ∀ i : Nat, evaluate_hand (s.hands i) = e i := fun i => rfl
    simp only [hg]
    rw [get_winner, h4]
    simp only [List.foldl_cons, List.foldl_nil, get_winner_step, hg]
    by_cases h1 : e 0 < e 1
    · rw [if_pos h1]; try dsimp only
      by_cases h2 : e 1 < e 2
      · rw [if_pos h2]; try dsimp only
        by_cases h3 : e 2 < e 3
        · rw [if_pos h3]; try dsimp only
          exact ⟨3, by norm_num, by omega,
            by intro j hj; interval_cases j <;> linarith,
            by intro j hj; interval_cases j <;> linarith⟩
        · rw [if_neg h3]; try dsimp only
          exact ⟨2, by norm_num, by omega,
            by intro j hj; interval_cases j <;> linarith,
            by intro j hj; interval_cases j <;> linarith⟩
      · rw [if_neg h2]; try dsimp only
        by_cases h3 : e 1 < e 3
        · rw [if_pos h3]; try dsimp only
          exact ⟨3, by norm_num, by omega,
            by intro j hj; interval_cases j <;> linarith,
            by intro j hj; interval_cases j <;> linarith⟩
        · rw [if_neg h3]; try dsimp only
          exact ⟨1, by norm_num, by omega,
            by intro j hj; interval_cases j <;> linarith,
            by intro j hj; interval_cases j; linarith⟩
    · rw [if_neg h1]; try dsimp only
      by_cases h2 : e 0 < e 2
      · rw [if_pos h2]; try dsimp only
        by_cases h3 : e 2 < e 3
        · rw [if_pos h3]; try dsimp only
          exact ⟨3, by norm_num, by omega,
            by intro j hj; interval_cases j <;> linarith,
            by intro j hj; interval_cases j <;> linarith⟩
        · rw [if_neg h3]; try dsimp only
          exact ⟨2, by norm_num, by omega,
            by intro j hj; interval_cases j <;> linarith,
            by intro j hj; interval_cases j <;> linarith⟩
      · rw [if_neg h2]; try dsimp only
        by_cases h3 : e 0 < e 3
        · rw [if_pos h3]; try dsimp only
          exact ⟨3, by norm_num, by omega,
            by intro j hj; interval_cases j <;> linarith,
            by intro j hj; interval_cases j <;> linarith⟩
        · rw [if_neg h3]; try dsimp only
          exact ⟨0, by norm_num, by omega,
            by intro j hj; interval_cases j <;> linarith,
            by intro j hj; omega⟩

/-- C4 witness: the amended statement instantiated on the exhausted-wall
state. -/
theorem claim4_witness :
    play_game 7 c4_state = get_winner c4_state.hands ∧
    ∃ w : Nat, get_winner c4_state.hands = (w : Int) ∧ w < 4 ∧
      (∀ j, j < 4 →
        evaluate_hand (c4_state.hands j) ≤ evaluate_hand (c4_state.hands w)) ∧
      ∀ j, j < w →
        evaluate_hand (c4_state.hands j) < evaluate_hand (c4_state.hands w) :=
  claim4_wall_exhaustion_argmax 7 c4_state rfl

/-- A tile matches the suit-and-rank test iff it equals the discard:
`Tile` consists of exactly those two fields. -/
theorem matches_tile_iff (tile t : Tile) :
    matches_tile tile t = true ↔ t = tile := by
  cases t
  cases tile
  simp [matches_tile, Tile.mk.injEq]

/-- The matching test as a boolean equality test. -/
theorem matches_tile_eq_beq (tile t : Tile) :
    matches_tile tile t = (t == tile) := by
  by_cases h : t = tile
  · simp [matches_tile_iff, h]
  · rw [Bool.eq_iff_iff]
    simp [matches_tile_iff, h]

/-- The number of matching tiles in a hand is the multiplicity of the
discard's identity. -/
theorem matching_length_eq_count (hand : List Tile) (tile : Tile) :
    (hand.filter (matches_tile tile)).length = hand.count tile := by
  rw [show hand.count tile = hand.countP (· == tile) from rfl,
    List.countP_eq_length_filter]
  congr 1
  exact List.filter_congr (fun t _ => matches_tile_eq_beq tile t)

/-- C2: evaluating `_handle_ai_claim` on any state where the pung branch
fires (at least two tiles of the claimer's hand match the discard)
increases the number of tiles the claimer accounts for by exactly one:
the claimer's hand loses the two matching tiles (and, after the forced
follow-up discard, one more tile that moves to its discard pile), while
the revealed meld gains three tiles — the claimed tile is duplicated,
because it is never removed from the discarder's discard pile and that
pile is untouched by this function.  Tile conservation at 108 therefore
fails on every claim transition. -/
theorem claim2_ai_claim_inflates_tile_count (hand : List Tile)
    (melds : List (List Tile)) (discards : List Tile) (tile : Tile)
    (h2 : 2 ≤ (hand.filter (matches_tile tile)).length) :
    seat_tile_count (handle_ai_claim hand melds discards tile).1.1
      (handle_ai_claim hand melds discards tile).1.2.1
      (handle_ai_claim hand melds discards tile).1.2.2 =
    seat_tile_count hand melds discards + 1 := by
  have hcnt : 2 ≤ hand.count tile := by
    rw [← matching_length_eq_count]
    exact h2
  have hm0 : (hand.filter (matches_tile tile)).getD 0 default = tile := by
    have hlt : 0 < (hand.filter (matches_tile tile)).length := by omega
    rw [List.getD_eq_get _ _ hlt]
    have hmem := List.get_mem (hand.filter (matches_tile tile)) 0 hlt
    exact (matches_tile_iff tile _).mp (List.mem_filter.mp hmem).2
  have hm1 : (hand.filter (matches_tile tile)).getD 1 default = tile := by
    have hlt : 1 < (hand.filter (matches_tile tile)).length := by omega
    rw [List.getD_eq_get _ _ hlt]
    have hmem := List.get_mem (hand.filter (matches_tile tile)) 1 hlt
    exact (matches_tile_iff tile _).mp (List.mem_filter.mp hmem).2
  have htm : tile ∈ hand := List.count_pos_iff.mp (by omega)
  have hte : tile ∈ hand.erase tile := by
    rw [← List.count_pos_iff, List.count_erase_self]
    omega
  have hlenhand : 2 ≤ hand.length :=
    le_trans hcnt (List.count_le_length tile hand)
  have hl1 : (hand.erase tile).length = hand.length - 1 :=
    List.length_erase_of_mem htm
  have hl2 : ((hand.erase tile).erase tile).length = hand.length - 2 := by
    rw [List.length_erase_of_mem hte, hl1]
    omega
  have hmeld : ((hand.filter (matches_tile tile)).take 2 ++ [tile]).length = 3 := by
    rw [List.length_append, List.length_take]
    simp [Nat.min_eq_left h2]
  unfold handle_ai_claim
  rw [if_pos h2, hm0, hm1]
  unfold after_claim
  cases hr : (choose_discard ((hand.erase tile).erase tile)).2 with
  | some dt =>
    simp only [hr]
    have hperm := choose_discard_perm ((hand.erase tile).erase tile)
    have hdt1 : dt ∈ (hand.erase tile).erase tile :=
      choose_discard_mem _ dt hr
    have hdt2 : dt ∈ (choose_discard ((hand.erase tile).erase tile)).1 :=
      hperm.mem_iff.mpr hdt1
    have hlr : (choose_discard ((hand.erase tile).erase tile)).1.length =
        hand.length - 2 := by
      rw [hperm.length_eq, hl2]
    have hne : (hand.erase tile).erase tile ≠ [] := by
      intro hc
      rw [hc] at hdt1
      simp at hdt1
    have hge : 3 ≤ hand.length := by
      have := List.length_pos.mpr hne
      omega
    simp only [seat_tile_count, List.map_append, List.sum_append,
      List.length_erase_of_mem hdt2, hlr, hmeld, List.length_append,
      List.length_cons, List.length_nil, List.map_cons, List.map_nil,
      List.sum_cons, List.sum_nil]
    omega
  | none =>
    simp only [hr]
    have hnil : (hand.erase tile).erase tile = [] :=
      (choose_discard_none_iff _).mp hr
    have hlen0 : hand.length = 2 := by
      have := congrArg List.length hnil
      simp only [List.length_nil] at this
      omega
    have hr1 : (choose_discard ((hand.erase tile).erase tile)).1 = [] := by
      rw [hnil]
      rfl
    simp only [seat_tile_count, List.map_append, List.sum_append, hr1, hmeld,
      List.length_nil, List.map_cons, List.map_nil, List.sum_cons,
      List.sum_nil]
    omega

/-- C2 witness: seat 1 holds `[5-Wan, 5-Wan, 9-Wan]` and claims a
discarded `5-Wan`; it ends with an empty hand, the revealed pung
`[5-Wan, 5-Wan, 5-Wan]` and the discard `9-Wan` — 4 tiles accounted for
where 3 were before. -/
theorem claim2_witness :
    2 ≤ (([wn 5, wn 5, wn 9].filter (matches_tile (wn 5)))).length ∧
    seat_tile_count (handle_ai_claim [wn 5, wn 5, wn 9] [] [] (wn 5)).1.1
      (handle_ai_claim [wn 5, wn 5, wn 9] [] [] (wn 5)).1.2.1
      (handle_ai_claim [wn 5, wn 5, wn 9] [] [] (wn 5)).1.2.2 =
    seat_tile_count [wn 5, wn 5, wn 9] [] [] + 1 :=
  ⟨by decide,
    claim2_ai_claim_inflates_tile_count [wn 5, wn 5, wn 9] [] [] (wn 5)
      (by decide)⟩

/-- Looking up a key in an association list built by pairing each list
element with a computed value yields that computed value. -/
theorem lookup_map_self (f : Tile → ℚ) (l : List Tile) (t : Tile) (h : t ∈ l) :
    List.lookup t (l.map (fun a => (a, f a))) = some (f t) := by
  induction l with
  | nil => cases h
  | cons a l ih =>
    by_cases hat : t = a
    · subst hat
      simp [List.lookup]
    · have : (t == a) = false := beq_eq_false_iff_ne.mpr hat
      simp only [List.map_cons, List.lookup, this]
      exact ih (by
        rcases List.mem_cons.mp h with h1 | h1
        · exact absurd h1 hat
        · exact h1)

/-- Under the well-formedness hypothesis that every visible tile is one
of the 27 identities, the number of visible tiles is the sum of the
per-identity visible counts. -/
theorem visible_length_eq_sum (visible : List Tile)
    (hval : ∀ t ∈ visible, t ∈ all_tile_identities) :
    visible.length = ∑ x ∈ all_tile_identities.toFinset, visible.count x := by
  classical
  have hsub : (visible : Multiset Tile).toFinset ⊆ all_tile_identities.toFinset := by
    intro x hx
    rw [Multiset.mem_toFinset, Multiset.mem_coe] at hx
    rw [List.mem_toFinset]
    exact hval x hx
  have hzero : ∀ x ∈ all_tile_identities.toFinset,
      x ∉ (visible : Multiset Tile).toFinset → Multiset.count x ↑visible = 0 := by
    intro x _ hx
    rw [Multiset.count_eq_zero]
    intro hc
    exact hx (Multiset.mem_toFinset.mpr hc)
  have h2 := Finset.sum_subset hsub hzero
  have h1 := Multiset.toFinset_sum_count_eq (visible : Multiset Tile)
  rw [h2] at h1
  simp only [Multiset.coe_count] at h1
  rw [h1]
  simp

/-- C7 amended: on every state whose visible tiles are among the 27
identities with at most 4 visible copies each (true of all reachable
game states), the returned mapping is defined on all 27 identities, each
probability is `max(0, 4 - visible_count)/total_unknown` when
`total_unknown > 0` and 0 when `total_unknown ≤ 0`, every probability
lies in [0,1], and an identity with all 4 copies visible has
probability 0. -/
theorem claim7_probabilities_wellformed (visible : List Tile)
    (hval : ∀ t ∈ visible, t ∈ all_tile_identities)
    (h4 : ∀ t : Tile, visible.count t ≤ 4) :
    ∀ t ∈ all_tile_identities, ∃ p : ℚ,
      List.lookup t (calculate_tile_probabilities visible) = some p ∧
      0 ≤ p ∧ p ≤ 1 ∧
      ((3 * 9 * 4 : Int) - (visible.length : Int) ≤ 0 → p = 0) ∧
      (0 < (3 * 9 * 4 : Int) - (visible.length : Int) →
        p = ((max 0 (4 - (visible.count t : Int)) : Int) : ℚ) /
          (((3 * 9 * 4 : Int) - (visible.length : Int) : Int) : ℚ)) ∧
      (visible.count t = 4 → p = 0) := by
  classical
  intro t ht
  have hS := visible_length_eq_sum visible hval
  have hcard : all_tile_identities.toFinset.card = 27 := by decide
  have h108 : ∑ _x ∈ all_tile_identities.toFinset, (4 : ℕ) = 108 := by
    rw [Finset.sum_const, hcard, smul_eq_mul]
  by_cases htu : (3 * 9 * 4 : Int) - (visible.length : Int) ≤ 0
  · have hlen108 : 108 ≤ visible.length := by omega
    have hall4 : ∀ x ∈ all_tile_identities.toFinset, visible.count x = 4 := by
      by_contra hc
      push_neg at hc
      obtain ⟨x0, hx0, hne⟩ := hc
      have hlt : visible.count x0 < 4 := lt_of_le_of_ne (h4 x0) hne
      have hstrict : ∑ x ∈ all_tile_identities.toFinset, visible.count x <
          ∑ _x ∈ all_tile_identities.toFinset, (4 : ℕ) :=
        Finset.sum_lt_sum (fun i _ => h4 i) ⟨x0, hx0, hlt⟩
      omega
    have htv : t ∈ visible := by
      have hc4 := hall4 t (List.mem_toFinset.mpr ht)
      exact List.count_pos_iff.mp (by omega)
    refine ⟨0, ?_, le_refl 0, by norm_num, fun _ => rfl,
      fun h0 => absurd htu (not_le.mpr h0), fun _ => rfl⟩
    simp only [calculate_tile_probabilities]
    rw [if_pos htu]
    exact lookup_map_self (fun _ => (0 : ℚ)) visible.dedup t
      (List.mem_dedup.mpr htv)
  · have htu' : (0 : ℤ) < 3 * 9 * 4 - (visible.length : Int) := by omega
    have hkey : (4 : ℤ) - visible.count t ≤ 3 * 9 * 4 - (visible.length : Int) := by
      have hsum : ∑ x ∈ all_tile_identities.toFinset,
          ((4 : ℤ) - visible.count x) = 108 - (visible.length : ℤ) := by
        rw [Finset.sum_sub_distrib, Finset.sum_const, hcard]
        have : ((visible.length : ℤ)) =
            ∑ x ∈ all_tile_identities.toFinset, (visible.count x : ℤ) := by
          rw [hS]
          push_cast
          rfl
        rw [← this]
        norm_num
      have hterm : (4 : ℤ) - visible.count t ≤
          ∑ x ∈ all_tile_identities.toFinset, ((4 : ℤ) - visible.count x) := by
        refine @Finset.single_le_sum Tile ℤ _
          (fun x => (4 : ℤ) - (visible.count x : ℤ))
          all_tile_identities.toFinset ?_ t (List.mem_toFinset.mpr ht)
        intro i _
        show (0 : ℤ) ≤ 4 - (visible.count i : ℤ)
        have hh := h4 i
        omega
      linarith
    have hmax : max (0 : ℤ) (4 - (visible.count t : Int)) =
        4 - (visible.count t : Int) := by
      have := h4 t
      omega
    refine ⟨((max 0 (4 - (visible.count t : Int)) : Int) : ℚ) /
        (((3 * 9 * 4 : Int) - (visible.length : Int) : Int) : ℚ), ?_, ?_, ?_,
      fun hc => absurd hc (not_le.mpr htu'), fun _ => rfl, ?_⟩
    · simp only [calculate_tile_probabilities]
      rw [if_neg htu]
      refine (lookup_map_self (fun x =>
        if 0 < (3 * 9 * 4 : Int) - (visible.length : Int) then
          ((max 0 (4 - (visible.count x : Int)) : Int) : ℚ) /
            (((3 * 9 * 4 : Int) - (visible.length : Int) : Int) : ℚ)
        else 0) all_tile_identities t ht).trans ?_
      exact congrArg some (if_pos htu')
    · apply div_nonneg
      · exact_mod_cast le_max_left 0 (4 - (visible.count t : Int))
      · exact_mod_cast le_of_lt htu'
    · rw [div_le_one (by exact_mod_cast htu')]
      rw [hmax]
      exact_mod_cast hkey
    · intro hc4
      rw [hmax, hc4]
      norm_num

/-- C7 counterexample: on the (ill-formed but structurally valid) state
where the visible tiles are 105 copies of `1-Wan`, `total_unknown` is 3
and the mapping assigns `1-Tong` the value `4/3`, which exceeds 1: the
claim's assertion that every returned probability lies in [0,1] fails
without a well-formedness assumption on the state. -/
theorem claim7_counterexample :
    List.lookup (tg 1)
      (calculate_tile_probabilities (List.replicate 105 (wn 1))) =
      some (4 / 3) ∧ ¬((4 : ℚ) / 3 ≤ 1) := by
  with_unfolding_all decide

/-- C7 witness: the amended statement instantiated on the empty visible
multiset and the identity `1-Wan`. -/
theorem claim7_witness :
    ∃ p : ℚ,
      List.lookup (wn 1) (calculate_tile_probabilities []) = some p ∧
      0 ≤ p ∧ p ≤ 1 ∧
      ((3 * 9 * 4 : Int) - (([] : List Tile).length : Int) ≤ 0 → p = 0) ∧
      (0 < (3 * 9 * 4 : Int) - (([] : List Tile).length : Int) →
        p = ((max 0 (4 - (([] : List Tile).count (wn 1) : Int)) : Int) : ℚ) /
          (((3 * 9 * 4 : Int) - (([] : List Tile).length : Int) : Int) : ℚ)) ∧
      (([] : List Tile).count (wn 1) = 4 → p = 0) :=
  claim7_probabilities_wellformed [] (by simp) (by intro t; simp) (wn 1)
    (by decide)
